import Mathlib

/-!
Shallow embedding of `dicom_anonymizer.py` (DICOM de-identification utility).

Pure string/path manipulation is modelled on `List Char`; the pydicom
`Dataset` is modelled as an association list of field names to string
values, together with its `file_meta` association list and a list of
private tags.  File I/O (`dcmread` / `save_as`) is modelled by an explicit
file-system parameter `fsys : String → Except String DicomRecord` and by
collecting written files in the result instead of performing side effects.
`datetime.now()` readings are modelled by an explicit list of clock
readings consumed by the token-generation loop.
-/

/-! ### Basic string helpers -/

/-- Does `pat` occur at the head of the list? (literal-pattern prefix test) -/
def startsWithL : List Char → List Char → Bool
  | [], _ => true
  | _ :: _, [] => false
  | p :: ps, c :: cs => p == c && startsWithL ps cs

/-- Python `pat in s` on char lists (literal substring containment). -/
def containsL (pat : List Char) : List Char → Bool
  | [] => pat.isEmpty
  | c :: cs => startsWithL pat (c :: cs) || containsL pat cs

/-- Python `pat in s` for strings. -/
def containsSub (s pat : String) : Bool := containsL pat.toList s.toList

/-- Fuelled worker for `re.sub` with a literal pattern: replaces every
non-overlapping occurrence of `pat`, scanning left to right.  The fuel is
an upper bound on the number of characters still to scan. -/
def replGo (pat repl : List Char) : Nat → List Char → List Char
  | _, [] => []
  | 0, _ :: _ => []
  | n + 1, c :: cs =>
    if pat ≠ [] ∧ startsWithL pat (c :: cs) = true then
      repl ++ replGo pat repl n (cs.drop (pat.length - 1))
    else
      c :: replGo pat repl n cs

/-- `re.sub(pat, repl, s)` for a literal (metacharacter-free) pattern. -/
def replaceAll (s pat repl : String) : String :=
  ⟨replGo pat.toList repl.toList s.toList.length s.toList⟩

/-- Everything from the first occurrence of `pat` onwards is removed. -/
def cutAtL (pat : List Char) : List Char → List Char
  | [] => []
  | c :: cs => if startsWithL pat (c :: cs) then [] else c :: cutAtL pat cs

/-- `re.sub('DICOM(.*)', '', s)`: drop everything from the first `DICOM`. -/
def cutDICOM (s : String) : String := ⟨cutAtL "DICOM".toList s.toList⟩

/-- Python `str.zfill`: left-pad with `'0'` to width `w`. -/
def zfill (s : String) (w : Nat) : String :=
  ⟨List.replicate (w - s.length) '0' ++ s.toList⟩

/-- Python `"%04d" % n` for a natural number. -/
def fmt04 (n : Nat) : String := zfill (toString n) 4

/-- `os.path.join` restricted to the shapes used by the script. -/
def pjoin (a b : String) : String :=
  if a = "" then b
  else if a.toList.getLast? = some '/' then a ++ b
  else a ++ "/" ++ b

/-- `patient_id if len(patient_id) % 2 == 0 else patient_id + ' '`. -/
def padPid (patient_id : String) : String :=
  if patient_id.length % 2 = 0 then patient_id else patient_id ++ " "

/-! ### Identity extractor: `extract_id_sex_age` -/

/-- Attempt to match the regex `\d+ F \d+|\d+ M \d+` anchored at the head
of the list: a maximal nonempty digit run, a space, `F` or `M`, a space,
and a maximal nonempty digit run. -/
def matchAt (cs : List Char) : Option (List Char × Char × List Char) :=
  if (cs.takeWhile Char.isDigit).isEmpty then none
  else
    match cs.dropWhile Char.isDigit with
    | ' ' :: sx :: ' ' :: rest =>
      if sx = 'F' ∨ sx = 'M' then
        if (rest.takeWhile Char.isDigit).isEmpty then none
        else some (cs.takeWhile Char.isDigit, sx, rest.takeWhile Char.isDigit)
      else none
    | _ => none

/-- `re.search` for the pattern above: leftmost match wins. -/
def searchPat : List Char → Option (List Char × Char × List Char)
  | [] => none
  | c :: cs =>
    match matchAt (c :: cs) with
    | some r => some r
    | none => searchPat cs

/-- `extract_id_sex_age(path)`: search the path for `\d+ F \d+|\d+ M \d+`,
split the match on whitespace and return the three stripped tokens.
`none` models the `AttributeError` raised by `s.group(0)` when the search
returned `None`. -/
def extract_id_sex_age (path : String) : Option (String × String × String) :=
  (searchPat path.toList).map fun t => (⟨t.1⟩, ⟨[t.2.1]⟩, ⟨t.2.2⟩)

/-! ### Metadata record model and field tables -/

def DATE_FIELDS : List String := ["DateOfLastCalibration", "PatientBirthDate"]
def TIME_FIELDS : List String := ["TimeOfLastCalibration"]
def NAME_FIELDS : List String :=
  ["InstitutionName", "InstitutionAddress", "ReferringPhysicianName"]
def COMMENT_FIELDS : List String := ["ImageComments"]
def ID_FIELDS : List String := ["IrradiationEventUID"]
def META_FIELDS : List String := ["PrivateInformationCreatorUID", "PrivateInformation"]
def SEQUENCE_FIELDS : List String := ["RequestAttributesSequence"]

/-- A pydicom `Dataset`: main data-set fields, `file_meta` fields, and the
private tags removed by `remove_private_tags()`. -/
structure DicomRecord where
  fields : List (String × String)
  fileMeta : List (String × String)
  privateTags : List (String × String)
deriving DecidableEq, Repr

instance {e a : Type} [DecidableEq e] [DecidableEq a] :
    DecidableEq (Except e a) := fun x y =>
  match x, y with
  | .error u, .error v =>
    if h : u = v then isTrue (by rw [h]) else isFalse (by simp [h])
  | .ok u, .ok v =>
    if h : u = v then isTrue (by rw [h]) else isFalse (by simp [h])
  | .error _, .ok _ => isFalse (by simp)
  | .ok _, .error _ => isFalse (by simp)

/-- `k in d`. -/
def hasKey (l : List (String × String)) (k : String) : Bool :=
  l.any fun p => p.1 == k

/-- Value at key `k`, if present. -/
def getVal (l : List (String × String)) (k : String) : Option String :=
  (l.find? fun p => p.1 == k).map (·.2)

/-- `d[k].value = v` on a key known to be present: rewrite every entry at `k`. -/
def setVal (l : List (String × String)) (k v : String) : List (String × String) :=
  l.map fun p => if p.1 = k then (k, v) else p

/-- `del d[k]` / `d.pop(k, None)`: drop all entries at `k`. -/
def delKey (l : List (String × String)) (k : String) : List (String × String) :=
  l.filter fun p => p.1 ≠ k

/-- `if k in d: d[k].value = v` (also models `d[k].clear()` with `v = ""`). -/
def setIfPresent (l : List (String × String)) (k v : String) : List (String × String) :=
  if hasKey l k then setVal l k v else l

/-- `for k in ks: if k in d: d[k].value = v`. -/
def setFields (ks : List String) (v : String) (l : List (String × String)) :
    List (String × String) :=
  ks.foldl (fun acc k => setIfPresent acc k v) l

/-- `for k in ks: d.pop(k, None)` (and the guarded `del`, which is equivalent). -/
def delFields (ks : List String) (l : List (String × String)) :
    List (String × String) :=
  ks.foldl (fun acc k => delKey acc k) l

/-- The redaction pipeline of `anonymise` on the main field list:
dates → fixed date, times → fixed time, names/comments → cleared,
identifier fields and PHI-bearing sequences → deleted. -/
def redact (l : List (String × String)) : List (String × String) :=
  delFields SEQUENCE_FIELDS
    (delFields ID_FIELDS
      (setFields (NAME_FIELDS ++ COMMENT_FIELDS) ""
        (setFields TIME_FIELDS "094338"
          (setFields DATE_FIELDS "20250419" l))))

/-- `d[k].value = v` via bracket access: raises `KeyError` if `k` is absent. -/
def setExisting (l : List (String × String)) (k v : String) :
    Except String (List (String × String)) :=
  if hasKey l k then .ok (setVal l k v) else .error ("KeyError: " ++ k)

/-- `anonymise(d, sex, age, patient_id)`: strip private tags, apply the
redaction tables, strip the sensitive `file_meta` fields, then write the
normalized sex/age and the (evenness-padded) pseudonymous identifier into
the existing `PatientSex`/`PatientAge`/`PatientID` elements.  Any failure
is re-raised (`Except.error`). -/
def anonymise (d : DicomRecord) (sex age patient_id : String) :
    Except String DicomRecord :=
  match setExisting (redact d.fields) "PatientSex" (sex ++ " ") with
  | .error e => .error e
  | .ok fs1 =>
    match setExisting fs1 "PatientAge" (zfill age 3 ++ "Y") with
    | .error e => .error e
    | .ok fs2 =>
      match setExisting fs2 "PatientID" (padPid patient_id) with
      | .error e => .error e
      | .ok fs3 =>
        .ok { fields := fs3, fileMeta := delFields META_FIELDS d.fileMeta,
              privateTags := [] }

/-! ### Session processor: `process_folder` -/

/-- The token-generation loop: take `datetime.now()` readings until one
differs from `last_date_time`; `none` models a clock that never yields a
fresh reading (the loop does not terminate / readings exhausted). -/
def genToken (clock : List String) (last_date_time : String) : Option String :=
  clock.find? fun t => t ≠ last_date_time

/-- The novelty test of `process_folder`: the session is *not* new when
substituting one series category for the other in `root` yields the
previously recorded directory. -/
def sameAsLast (root : String) (cat : String × String) (last_directory : String) : Bool :=
  replaceAll root cat.1 cat.2 == last_directory ||
    replaceAll root cat.2 cat.1 == last_directory

/-- Output directory for one file: cut at `DICOM`, replace the dataset
root by `Anonymised`, replace the raw session token by the (unpadded)
pseudonymous identifier. -/
def savePath (file_path argPath mater_id patient_id : String) : String :=
  replaceAll (replaceAll (cutDICOM file_path) argPath "Anonymised") mater_id patient_id

/-- The body of the per-file `try` block: load, extract identity, build the
pseudonymous identifier from `date_time` (which is unbound when the
not-new branch was taken), anonymise, and compute the destination.
Returns the written file as (directory, file name, record). -/
def processFile (fsys : String → Except String DicomRecord) (root argPath : String)
    (date_time : Option String) (filename name4 : String) :
    Except String (String × String × DicomRecord) :=
  match fsys (pjoin root filename) with
  | .error e => .error e
  | .ok x =>
    match extract_id_sex_age (pjoin root filename) with
    | none => .error "AttributeError: NoneType object has no attribute group"
    | some (mater_id, sex, age) =>
      match date_time with
      | none => .error "UnboundLocalError: date_time"
      | some dt =>
        match anonymise x sex age (dt ++ mater_id ++ "M") with
        | .error e => .error e
        | .ok anonym =>
          .ok (savePath (pjoin root filename) argPath mater_id (dt ++ mater_id ++ "M"),
               "EXP" ++ name4 ++ ".dcm", anonym)

/-- The `for idx, filename in enumerate(files)` loop: each failure is
caught and recorded as `file_path + ': ' + message`; successes are the
written output files, in iteration order. -/
def runFiles (fsys : String → Except String DicomRecord) (root argPath : String)
    (date_time : Option String) :
    Nat → List String → List String × List (String × String × DicomRecord)
  | _, [] => ([], [])
  | i, f :: rest =>
    match processFile fsys root argPath date_time f (fmt04 i) with
    | .ok out =>
      ((runFiles fsys root argPath date_time (i + 1) rest).1,
       out :: (runFiles fsys root argPath date_time (i + 1) rest).2)
    | .error e =>
      ((pjoin root f ++ ": " ++ e) ::
        (runFiles fsys root argPath date_time (i + 1) rest).1,
       (runFiles fsys root argPath date_time (i + 1) rest).2)

/-- Lexicographic code-point comparison on char lists (Python string `<=`). -/
def leCharL : List Char → List Char → Bool
  | [], _ => true
  | _ :: _, [] => false
  | a :: as, b :: bs =>
    Nat.blt a.toNat b.toNat || (a == b && leCharL as bs)

/-- Python string comparison `a <= b` (code-point lexicographic). -/
def leStr (a b : String) : Bool := leCharL a.toList b.toList

/-- Insert into a lexicographically sorted list of file names. -/
def insertSorted (a : String) : List String → List String
  | [] => [a]
  | b :: bs => if leStr a b then a :: b :: bs else b :: insertSorted a bs

/-- `files.sort()`: lexicographic sorting of the file names. -/
def sortFiles : List String → List String
  | [] => []
  | a :: as => insertSorted a (sortFiles as)

/-- Result of one `process_folder` call: the two returned lists and the
files written to disk as a side effect. -/
structure FolderResult where
  problematic : List String
  empty_dir : List String
  outputs : List (String × String × DicomRecord)
deriving DecidableEq, Repr

/-- `process_folder((root, files, path, cat, last_directory, last_date_time))`.
`none` models divergence of the token-generation loop.  In the not-new
branch `date_time` is never assigned (`some none` below), which makes
every per-file iteration raise `UnboundLocalError`. -/
def tokenChoice (clock : List String) (root : String) (cat : String × String)
    (last_directory last_date_time : String) : Option (Option String) :=
  if sameAsLast root cat last_directory then some none
  else (genToken clock last_date_time).map some

def process_folder (fsys : String → Except String DicomRecord) (clock : List String)
    (root : String) (files : List String) (argPath : String) (cat : String × String)
    (last_directory last_date_time : String) : Option FolderResult :=
  if files = [] then some ⟨[], [root], []⟩
  else
    match tokenChoice clock root cat last_directory last_date_time with
    | none => none
    | some date_time =>
      some ⟨(runFiles fsys root argPath date_time 0 (sortFiles files)).1, [],
            (runFiles fsys root argPath date_time 0 (sortFiles files)).2⟩

/-! ### Batch driver: `main` -/

/-- The discovery filter of `main`: keep walk entries whose root contains
the session marker `EXP00000`. -/
def discoverRoots (walk : List (String × List String)) : List (String × List String) :=
  walk.filter fun rf => containsSub rf.1 "EXP00000"

/-- The work items `(root, files, args.path, cat, '', last_date_time)`
built by `main`; `last_date_time` is the module-level `''` and is never
updated between sessions. -/
def mainWorkItems (walk : List (String × List String)) (argPath : String) :
    List (String × List String × String × (String × String) × String × String) :=
  (discoverRoots walk).map fun rf => (rf.1, rf.2, argPath, ("T2_AX", "T2_SAG"), "", "")

/-! ### Specification predicates and concrete instances -/

/-- Every entry of `l` at key `k` carries value `v` (vacuous when absent). -/
def valAt (l : List (String × String)) (k v : String) : Prop :=
  ∀ p ∈ l, p.1 = k → p.2 = v

/-- The post-state of the redaction tables: date fields carry the fixed
date, time fields the fixed time, name/comment fields are cleared, and
identifier/sequence fields are gone. -/
def RedactedFields (l : List (String × String)) : Prop :=
  valAt l "DateOfLastCalibration" "20250419" ∧
  valAt l "PatientBirthDate" "20250419" ∧
  valAt l "TimeOfLastCalibration" "094338" ∧
  valAt l "InstitutionName" "" ∧
  valAt l "InstitutionAddress" "" ∧
  valAt l "ReferringPhysicianName" "" ∧
  valAt l "ImageComments" "" ∧
  hasKey l "IrradiationEventUID" = false ∧
  hasKey l "RequestAttributesSequence" = false

/-- The fields written by a successful `anonymise`. -/
def anonFields (fields : List (String × String)) (sex age patient_id : String) :
    List (String × String) :=
  setVal (setVal (setVal (redact fields) "PatientSex" (sex ++ " "))
    "PatientAge" (zfill age 3 ++ "Y")) "PatientID" (padPid patient_id)

def c4d : DicomRecord :=
  ⟨[("PatientSex", "F"), ("PatientAge", "034"), ("PatientID", "X")], [], []⟩

def c4d2 : DicomRecord :=
  ⟨[("PatientSex", "F "), ("PatientAge", "034Y"), ("PatientID", "p ")], [], []⟩

def c2d2 : DicomRecord :=
  ⟨[("PatientSex", "F "), ("PatientAge", "034Y"),
    ("PatientID", "25041909303812M ")], [], []⟩

/-- A file system on which every load succeeds with the same record. -/
def c1fs : String → Except String DicomRecord := fun _ => .ok c4d

/-- File system for the one-corrupt-among-four scenario. -/
def c3fs : String → Except String DicomRecord := fun p =>
  if p = "Dataset/12 F 034/T2_AX/EXP00000/b.dcm" then .error "load error"
  else .ok c4d

/-- Result of the one-corrupt-among-four scenario. -/
def c3res : FolderResult :=
  ⟨["Dataset/12 F 034/T2_AX/EXP00000/b.dcm: load error"], [],
   [("Anonymised/25041909303812M F 034/T2_AX/EXP00000/a.dcm", "EXP0000.dcm", c2d2),
    ("Anonymised/25041909303812M F 034/T2_AX/EXP00000/c.dcm", "EXP0002.dcm", c2d2),
    ("Anonymised/25041909303812M F 034/T2_AX/EXP00000/d.dcm", "EXP0003.dcm", c2d2)]⟩

/-- Result of the two-file all-success scenario. -/
def c6res : FolderResult :=
  ⟨[], [],
   [("Anonymised/25041909303812M F 034/T2_AX/EXP00000/a.dcm", "EXP0000.dcm", c2d2),
    ("Anonymised/25041909303812M F 034/T2_AX/EXP00000/b.dcm", "EXP0001.dcm", c2d2)]⟩

/-! ### Association-list lemmas -/


theorem hasKey_iff (l : List (String × String)) (k : String) :
    hasKey l k = true ↔ ∃ p ∈ l, p.1 = k := by
  simp [hasKey, List.any_eq_true]

theorem hasKey_setVal (l : List (String × String)) (k v j : String) :
    hasKey (setVal l k v) j = hasKey l j := by
  cases hb : hasKey l j with
  | true =>
    rw [hasKey_iff]
    obtain ⟨p, hp, hj⟩ := (hasKey_iff l j).mp hb
    refine ⟨if p.1 = k then (k, v) else p, List.mem_map.mpr ⟨p, hp, rfl⟩, ?_⟩
    by_cases h : p.1 = k
    · rw [if_pos h]; rw [← hj, h]
    · rw [if_neg h]; exact hj
  | false =>
    rw [Bool.eq_false_iff, Ne, hasKey_iff]
    rintro ⟨q, hq, hj⟩
    obtain ⟨p, hp, he⟩ := List.mem_map.mp hq
    have : p.1 = j := by
      by_cases h : p.1 = k
      · rw [if_pos h] at he; rw [← he] at hj; simp at hj; rw [h, hj]
      · rw [if_neg h] at he; rw [← he] at hj; exact hj
    exact absurd ((hasKey_iff l j).mpr ⟨p, hp, this⟩) (by simp [hb])

theorem valAt_setVal_self (l : List (String × String)) (k v : String) :
    valAt (setVal l k v) k v := by
  intro p hp hk
  obtain ⟨q, _, he⟩ := List.mem_map.mp hp
  by_cases h : q.1 = k
  · rw [if_pos h] at he; rw [← he]
  · rw [if_neg h] at he; rw [← he] at hk; exact absurd hk h

theorem valAt_setVal_ne (l : List (String × String)) (k v j w : String)
    (hne : k ≠ j) (h : valAt l j w) : valAt (setVal l k v) j w := by
  intro p hp hj
  obtain ⟨q, hq, he⟩ := List.mem_map.mp hp
  by_cases hk : q.1 = k
  · rw [if_pos hk] at he; rw [← he] at hj; exact absurd hj hne
  · rw [if_neg hk] at he; rw [← he] at hj ⊢; exact h q hq hj

theorem setVal_eq_of_valAt (l : List (String × String)) (k v : String)
    (h : valAt l k v) : setVal l k v = l := by
  induction l with
  | nil => rfl
  | cons p t ih =>
    have ht : setVal t k v = t := ih fun q hq hk => h q (by simp [hq]) hk
    simp only [setVal, List.map_cons] at ht ⊢
    by_cases hk : p.1 = k
    · have hv : p.2 = v := h p (by simp) hk
      have hp : (k, v) = p := by cases p; simp_all
      rw [if_pos hk, ht, hp]
    · rw [if_neg hk, ht]

theorem hasKey_delKey_self (l : List (String × String)) (k : String) :
    hasKey (delKey l k) k = false := by
  rw [Bool.eq_false_iff, Ne, hasKey_iff]
  rintro ⟨p, hp, hk⟩
  have := List.of_mem_filter hp
  simp only [decide_eq_true_eq] at this
  exact this hk

theorem hasKey_delKey_ne (l : List (String × String)) (k j : String)
    (h : j ≠ k) : hasKey (delKey l j) k = hasKey l k := by
  cases hb : hasKey l k with
  | true =>
    rw [hasKey_iff]
    obtain ⟨p, hp, hk⟩ := (hasKey_iff l k).mp hb
    refine ⟨p, List.mem_filter.mpr ⟨hp, ?_⟩, hk⟩
    simp [hk, h.symm]
  | false =>
    rw [Bool.eq_false_iff, Ne, hasKey_iff]
    rintro ⟨p, hp, hk⟩
    exact absurd ((hasKey_iff l k).mpr ⟨p, List.mem_of_mem_filter hp, hk⟩)
      (by simp [hb])

theorem valAt_delKey (l : List (String × String)) (k j v : String)
    (h : valAt l j v) : valAt (delKey l k) j v := by
  intro p hp hj
  exact h p (List.mem_of_mem_filter hp) hj

theorem delKey_eq_of_noKey (l : List (String × String)) (k : String)
    (h : hasKey l k = false) : delKey l k = l := by
  induction l with
  | nil => rfl
  | cons p t ih =>
    simp only [hasKey, List.any_cons, Bool.or_eq_false_iff] at h
    have hp : p.1 ≠ k := by simpa using h.1
    have ht : delKey t k = t := ih (by simp [hasKey, h.2])
    simp only [delKey, List.filter_cons] at ht ⊢
    rw [if_pos (by simpa using hp), ht]

theorem valAt_of_noKey (l : List (String × String)) (k v : String)
    (h : hasKey l k = false) : valAt l k v := by
  intro p hp hk
  exact absurd ((hasKey_iff l k).mpr ⟨p, hp, hk⟩) (by simp [h])

theorem getVal_of_valAt (l : List (String × String)) (k v : String)
    (hk : hasKey l k = true) (hv : valAt l k v) : getVal l k = some v := by
  induction l with
  | nil => simp [hasKey] at hk
  | cons p t ih =>
    simp only [getVal, List.find?_cons]
    by_cases h : p.1 = k
    · have : (p.1 == k) = true := by simp [h]
      rw [this]
      simp [hv p (by simp) h]
    · have : (p.1 == k) = false := by simp [h]
      rw [this]
      simp only [hasKey, List.any_cons, this, Bool.false_or] at hk
      exact ih hk fun q hq hj => hv q (by simp [hq]) hj

theorem hasKey_setIfPresent (l : List (String × String)) (k v j : String) :
    hasKey (setIfPresent l k v) j = hasKey l j := by
  unfold setIfPresent
  by_cases h : hasKey l k
  · rw [if_pos h, hasKey_setVal]
  · rw [if_neg h]

theorem valAt_setIfPresent_self (l : List (String × String)) (k v : String) :
    valAt (setIfPresent l k v) k v := by
  unfold setIfPresent
  by_cases h : hasKey l k
  · rw [if_pos h]; exact valAt_setVal_self l k v
  · rw [if_neg h]; exact valAt_of_noKey l k v (by simpa using h)

theorem valAt_setIfPresent_ne (l : List (String × String)) (k v j w : String)
    (hne : k ≠ j) (h : valAt l j w) : valAt (setIfPresent l k v) j w := by
  unfold setIfPresent
  by_cases hk : hasKey l k
  · rw [if_pos hk]; exact valAt_setVal_ne l k v j w hne h
  · rw [if_neg hk]; exact h

theorem setIfPresent_eq_of_valAt (l : List (String × String)) (k v : String)
    (h : valAt l k v) : setIfPresent l k v = l := by
  unfold setIfPresent
  by_cases hk : hasKey l k
  · rw [if_pos hk]; exact setVal_eq_of_valAt l k v h
  · rw [if_neg hk]

theorem hasKey_setFields (ks : List String) (v : String)
    (l : List (String × String)) (j : String) :
    hasKey (setFields ks v l) j = hasKey l j := by
  induction ks generalizing l with
  | nil => rfl
  | cons k t ih =>
    simp only [setFields, List.foldl_cons] at ih ⊢
    rw [ih, hasKey_setIfPresent]

theorem valAt_setFields (ks : List String) (v : String)
    (l : List (String × String)) (j : String) (h : valAt l j v) :
    valAt (setFields ks v l) j v := by
  induction ks generalizing l with
  | nil => exact h
  | cons k t ih =>
    simp only [setFields, List.foldl_cons] at ih ⊢
    refine ih _ ?_
    by_cases hk : k = j
    · subst hk; exact valAt_setIfPresent_self l k v
    · exact valAt_setIfPresent_ne l k v j v hk h

theorem valAt_setFields_mem (ks : List String) (v : String)
    (l : List (String × String)) (j : String) (h : j ∈ ks) :
    valAt (setFields ks v l) j v := by
  induction ks generalizing l with
  | nil => cases h
  | cons k t ih =>
    simp only [setFields, List.foldl_cons] at ih ⊢
    rcases List.mem_cons.mp h with h' | h'
    · subst h'
      exact valAt_setFields t v _ j (valAt_setIfPresent_self l j v)
    · exact ih _ h'

theorem valAt_setFields_ne (ks : List String) (v : String)
    (l : List (String × String)) (j w : String) (hj : j ∉ ks)
    (h : valAt l j w) : valAt (setFields ks v l) j w := by
  induction ks generalizing l with
  | nil => exact h
  | cons k t ih =>
    simp only [setFields, List.foldl_cons] at ih ⊢
    have hk : k ≠ j := fun he => hj (by simp [he])
    exact ih _ (fun ht => hj (by simp [ht])) (valAt_setIfPresent_ne l k v j w hk h)

theorem setFields_eq_of_valAt (ks : List String) (v : String)
    (l : List (String × String)) (h : ∀ k ∈ ks, valAt l k v) :
    setFields ks v l = l := by
  induction ks with
  | nil => rfl
  | cons k t ih =>
    simp only [setFields, List.foldl_cons] at ih ⊢
    rw [setIfPresent_eq_of_valAt l k v (h k (by simp))]
    exact ih fun k' hk' => h k' (by simp [hk'])

theorem hasKey_delFields_ne (ks : List String) (l : List (String × String))
    (j : String) (hj : j ∉ ks) : hasKey (delFields ks l) j = hasKey l j := by
  induction ks generalizing l with
  | nil => rfl
  | cons k t ih =>
    simp only [delFields, List.foldl_cons] at ih ⊢
    rw [ih _ (fun ht => hj (by simp [ht])), hasKey_delKey_ne]
    exact fun he => hj (by simp [he])

theorem noKey_delFields (ks : List String) (l : List (String × String))
    (j : String) (hj : hasKey l j = false) :
    hasKey (delFields ks l) j = false := by
  induction ks generalizing l with
  | nil => exact hj
  | cons k t ih =>
    simp only [delFields, List.foldl_cons] at ih ⊢
    refine ih _ ?_
    by_cases hk : j = k
    · subst hk; exact hasKey_delKey_self l j
    · rw [hasKey_delKey_ne l j k (Ne.symm hk)]; exact hj

theorem noKey_delFields_mem (ks : List String) (l : List (String × String))
    (j : String) (hj : j ∈ ks) : hasKey (delFields ks l) j = false := by
  induction ks generalizing l with
  | nil => cases hj
  | cons k t ih =>
    simp only [delFields, List.foldl_cons] at ih ⊢
    rcases List.mem_cons.mp hj with h' | h'
    · subst h'
      exact noKey_delFields t _ j (hasKey_delKey_self l j)
    · exact ih _ h'

theorem valAt_delFields (ks : List String) (l : List (String × String))
    (j v : String) (h : valAt l j v) : valAt (delFields ks l) j v := by
  induction ks generalizing l with
  | nil => exact h
  | cons k t ih =>
    simp only [delFields, List.foldl_cons] at ih ⊢
    exact ih _ (valAt_delKey l k j v h)

theorem delFields_eq_of_noKey (ks : List String) (l : List (String × String))
    (h : ∀ k ∈ ks, hasKey l k = false) : delFields ks l = l := by
  induction ks with
  | nil => rfl
  | cons k t ih =>
    simp only [delFields, List.foldl_cons] at ih ⊢
    rw [delKey_eq_of_noKey l k (h k (by simp))]
    exact ih fun k' hk' => h k' (by simp [hk'])

/-! ### Redaction characterization -/

theorem redactedFields_redact (l : List (String × String)) :
    RedactedFields (redact l) := by
  unfold redact
  refine ⟨?_, ?_, ?_, ?_, ?_, ?_, ?_, ?_, ?_⟩
  · exact valAt_delFields _ _ _ _ (valAt_delFields _ _ _ _
      (valAt_setFields_ne _ _ _ _ _ (by decide)
        (valAt_setFields_ne _ _ _ _ _ (by decide)
          (valAt_setFields_mem _ _ _ _ (by decide)))))
  · exact valAt_delFields _ _ _ _ (valAt_delFields _ _ _ _
      (valAt_setFields_ne _ _ _ _ _ (by decide)
        (valAt_setFields_ne _ _ _ _ _ (by decide)
          (valAt_setFields_mem _ _ _ _ (by decide)))))
  · exact valAt_delFields _ _ _ _ (valAt_delFields _ _ _ _
      (valAt_setFields_ne _ _ _ _ _ (by decide)
        (valAt_setFields_mem _ _ _ _ (by decide))))
  · exact valAt_delFields _ _ _ _ (valAt_delFields _ _ _ _
      (valAt_setFields_mem _ _ _ _ (by decide)))
  · exact valAt_delFields _ _ _ _ (valAt_delFields _ _ _ _
      (valAt_setFields_mem _ _ _ _ (by decide)))
  · exact valAt_delFields _ _ _ _ (valAt_delFields _ _ _ _
      (valAt_setFields_mem _ _ _ _ (by decide)))
  · exact valAt_delFields _ _ _ _ (valAt_delFields _ _ _ _
      (valAt_setFields_mem _ _ _ _ (by decide)))
  · exact noKey_delFields _ _ _ (noKey_delFields_mem _ _ _ (by decide))
  · exact noKey_delFields_mem _ _ _ (by decide)

theorem redact_eq_of_redacted (l : List (String × String))
    (h : RedactedFields l) : redact l = l := by
  obtain ⟨h1, h2, h3, h4, h5, h6, h7, h8, h9⟩ := h
  unfold redact
  have hd : setFields DATE_FIELDS "20250419" l = l := by
    refine setFields_eq_of_valAt _ _ _ fun k hk => ?_
    have : k = "DateOfLastCalibration" ∨ k = "PatientBirthDate" := by
      simpa [DATE_FIELDS] using hk
    rcases this with rfl | rfl
    · exact h1
    · exact h2
  have ht : setFields TIME_FIELDS "094338" l = l := by
    refine setFields_eq_of_valAt _ _ _ fun k hk => ?_
    have : k = "TimeOfLastCalibration" := by simpa [TIME_FIELDS] using hk
    subst this; exact h3
  have hn : setFields (NAME_FIELDS ++ COMMENT_FIELDS) "" l = l := by
    refine setFields_eq_of_valAt _ _ _ fun k hk => ?_
    have : k = "InstitutionName" ∨ k = "InstitutionAddress" ∨
        k = "ReferringPhysicianName" ∨ k = "ImageComments" := by
      simpa [NAME_FIELDS, COMMENT_FIELDS] using hk
    rcases this with rfl | rfl | rfl | rfl
    · exact h4
    · exact h5
    · exact h6
    · exact h7
  have hi : delFields ID_FIELDS l = l := by
    refine delFields_eq_of_noKey _ _ fun k hk => ?_
    have : k = "IrradiationEventUID" := by simpa [ID_FIELDS] using hk
    subst this; exact h8
  have hs : delFields SEQUENCE_FIELDS l = l := by
    refine delFields_eq_of_noKey _ _ fun k hk => ?_
    have : k = "RequestAttributesSequence" := by simpa [SEQUENCE_FIELDS] using hk
    subst this; exact h9
  rw [hd, ht, hn, hi, hs]

theorem hasKey_redact (l : List (String × String)) (j : String)
    (h1 : j ∉ ID_FIELDS) (h2 : j ∉ SEQUENCE_FIELDS) :
    hasKey (redact l) j = hasKey l j := by
  unfold redact
  rw [hasKey_delFields_ne _ _ _ h2, hasKey_delFields_ne _ _ _ h1,
    hasKey_setFields, hasKey_setFields, hasKey_setFields]

theorem redactedFields_setVal (l : List (String × String)) (k v : String)
    (h : RedactedFields l)
    (n1 : k ≠ "DateOfLastCalibration") (n2 : k ≠ "PatientBirthDate")
    (n3 : k ≠ "TimeOfLastCalibration") (n4 : k ≠ "InstitutionName")
    (n5 : k ≠ "InstitutionAddress") (n6 : k ≠ "ReferringPhysicianName")
    (n7 : k ≠ "ImageComments") : RedactedFields (setVal l k v) := by
  obtain ⟨h1, h2, h3, h4, h5, h6, h7, h8, h9⟩ := h
  exact ⟨valAt_setVal_ne _ _ _ _ _ n1 h1, valAt_setVal_ne _ _ _ _ _ n2 h2,
    valAt_setVal_ne _ _ _ _ _ n3 h3, valAt_setVal_ne _ _ _ _ _ n4 h4,
    valAt_setVal_ne _ _ _ _ _ n5 h5, valAt_setVal_ne _ _ _ _ _ n6 h6,
    valAt_setVal_ne _ _ _ _ _ n7 h7,
    by rw [hasKey_setVal]; exact h8, by rw [hasKey_setVal]; exact h9⟩

/-! ### `anonymise` characterization -/

theorem anonymise_eq_ok (d : DicomRecord) (sex age patient_id : String)
    (h1 : hasKey d.fields "PatientSex" = true)
    (h2 : hasKey d.fields "PatientAge" = true)
    (h3 : hasKey d.fields "PatientID" = true) :
    anonymise d sex age patient_id =
      .ok ⟨anonFields d.fields sex age patient_id,
           delFields META_FIELDS d.fileMeta, []⟩ := by
  have k1 : hasKey (redact d.fields) "PatientSex" = true := by
    rw [hasKey_redact _ _ (by decide) (by decide)]; exact h1
  have k2 : hasKey (setVal (redact d.fields) "PatientSex" (sex ++ " "))
      "PatientAge" = true := by
    rw [hasKey_setVal, hasKey_redact _ _ (by decide) (by decide)]; exact h2
  have k3 : hasKey (setVal (setVal (redact d.fields) "PatientSex" (sex ++ " "))
      "PatientAge" (zfill age 3 ++ "Y")) "PatientID" = true := by
    rw [hasKey_setVal, hasKey_setVal, hasKey_redact _ _ (by decide) (by decide)]
    exact h3
  unfold anonymise setExisting anonFields
  simp [k1, k2, k3]

theorem anonymise_ok_elim (d : DicomRecord) (sex age patient_id : String)
    (d' : DicomRecord) (h : anonymise d sex age patient_id = .ok d') :
    hasKey d.fields "PatientSex" = true ∧
    hasKey d.fields "PatientAge" = true ∧
    hasKey d.fields "PatientID" = true ∧
    d' = ⟨anonFields d.fields sex age patient_id,
          delFields META_FIELDS d.fileMeta, []⟩ := by
  have e1 : hasKey (redact d.fields) "PatientSex" = hasKey d.fields "PatientSex" :=
    hasKey_redact _ _ (by decide) (by decide)
  have e2 : hasKey (redact d.fields) "PatientAge" = hasKey d.fields "PatientAge" :=
    hasKey_redact _ _ (by decide) (by decide)
  have e3 : hasKey (redact d.fields) "PatientID" = hasKey d.fields "PatientID" :=
    hasKey_redact _ _ (by decide) (by decide)
  by_cases k1 : hasKey d.fields "PatientSex" = true
  · by_cases k2 : hasKey d.fields "PatientAge" = true
    · by_cases k3 : hasKey d.fields "PatientID" = true
      · rw [anonymise_eq_ok d sex age patient_id k1 k2 k3] at h
        injection h with h'
        exact ⟨k1, k2, k3, h'.symm⟩
      · exfalso
        have f1 : hasKey (redact d.fields) "PatientSex" = true := by
          rw [e1]; exact k1
        have f2 : hasKey (setVal (redact d.fields) "PatientSex" (sex ++ " "))
            "PatientAge" = true := by
          rw [hasKey_setVal, e2]; exact k2
        have f3 : hasKey (setVal (setVal (redact d.fields) "PatientSex"
            (sex ++ " ")) "PatientAge" (zfill age 3 ++ "Y")) "PatientID" = false := by
          rw [hasKey_setVal, hasKey_setVal, e3]
          exact Bool.eq_false_iff.mpr k3
        unfold anonymise setExisting at h
        simp [f1, f2, f3] at h
    · exfalso
      have f1 : hasKey (redact d.fields) "PatientSex" = true := by
        rw [e1]; exact k1
      have f2 : hasKey (setVal (redact d.fields) "PatientSex" (sex ++ " "))
          "PatientAge" = false := by
        rw [hasKey_setVal, e2]; exact Bool.eq_false_iff.mpr k2
      unfold anonymise setExisting at h
      simp [f1, f2] at h
  · exfalso
    have f1 : hasKey (redact d.fields) "PatientSex" = false := by
      rw [e1]; exact Bool.eq_false_iff.mpr k1
    unfold anonymise setExisting at h
    simp [f1] at h

theorem hasKey_anonFields (l : List (String × String)) (s a p j : String)
    (h1 : j ∉ ID_FIELDS) (h2 : j ∉ SEQUENCE_FIELDS) :
    hasKey (anonFields l s a p) j = hasKey l j := by
  unfold anonFields
  rw [hasKey_setVal, hasKey_setVal, hasKey_setVal, hasKey_redact _ _ h1 h2]

theorem getVal_anonFields_pid (l : List (String × String)) (s a p : String)
    (h : hasKey l "PatientID" = true) :
    getVal (anonFields l s a p) "PatientID" = some (padPid p) := by
  refine getVal_of_valAt _ _ _ ?_ ?_
  · rw [hasKey_anonFields _ _ _ _ _ (by decide) (by decide)]; exact h
  · unfold anonFields; exact valAt_setVal_self _ _ _

theorem getVal_anonFields_age (l : List (String × String)) (s a p : String)
    (h : hasKey l "PatientAge" = true) :
    getVal (anonFields l s a p) "PatientAge" = some (zfill a 3 ++ "Y") := by
  refine getVal_of_valAt _ _ _ ?_ ?_
  · rw [hasKey_anonFields _ _ _ _ _ (by decide) (by decide)]; exact h
  · unfold anonFields
    exact valAt_setVal_ne _ _ _ _ _ (by decide) (valAt_setVal_self _ _ _)

theorem getVal_anonFields_sex (l : List (String × String)) (s a p : String)
    (h : hasKey l "PatientSex" = true) :
    getVal (anonFields l s a p) "PatientSex" = some (s ++ " ") := by
  refine getVal_of_valAt _ _ _ ?_ ?_
  · rw [hasKey_anonFields _ _ _ _ _ (by decide) (by decide)]; exact h
  · unfold anonFields
    exact valAt_setVal_ne _ _ _ _ _ (by decide)
      (valAt_setVal_ne _ _ _ _ _ (by decide) (valAt_setVal_self _ _ _))

theorem padPid_even (p : String) : (padPid p).length % 2 = 0 := by
  unfold padPid
  by_cases h : p.length % 2 = 0
  · rw [if_pos h]; exact h
  · rw [if_neg h, String.length_append]
    have hs : (" " : String).length = 1 := rfl
    rw [hs]
    omega

theorem anonFields_fixedpoint (l : List (String × String))
    (sex age patient_id : String) (hrf : RedactedFields l)
    (hv1 : valAt l "PatientSex" (sex ++ " "))
    (hv2 : valAt l "PatientAge" (zfill age 3 ++ "Y"))
    (hv3 : valAt l "PatientID" (padPid patient_id)) :
    anonFields l sex age patient_id = l := by
  unfold anonFields
  rw [redact_eq_of_redacted _ hrf, setVal_eq_of_valAt _ _ _ hv1,
    setVal_eq_of_valAt _ _ _ hv2, setVal_eq_of_valAt _ _ _ hv3]

theorem redactedFields_anonFields (l : List (String × String))
    (sex age patient_id : String) :
    RedactedFields (anonFields l sex age patient_id) := by
  unfold anonFields
  refine redactedFields_setVal _ _ _ ?_ (by decide) (by decide) (by decide)
    (by decide) (by decide) (by decide) (by decide)
  refine redactedFields_setVal _ _ _ ?_ (by decide) (by decide) (by decide)
    (by decide) (by decide) (by decide) (by decide)
  refine redactedFields_setVal _ _ _ ?_ (by decide) (by decide) (by decide)
    (by decide) (by decide) (by decide) (by decide)
  exact redactedFields_redact l

theorem delFields_meta_idem (fm : List (String × String)) :
    delFields META_FIELDS (delFields META_FIELDS fm) = delFields META_FIELDS fm :=
  delFields_eq_of_noKey _ _ fun _ hk => noKey_delFields_mem _ _ _ hk

example : extract_id_sex_age "Dataset/12 F 034/T2_AX - x/EXP00000/IM1.dcm" =
    some ("12", "F", "034") := by decide

example : replaceAll "D/1 F 2/T2_AX/EXP00000" "T2_AX" "T2_SAG" =
    "D/1 F 2/T2_SAG/EXP00000" := by decide

example : cutDICOM "Dataset/12 F 034/DICOM/IM1.dcm" = "Dataset/12 F 034/" := by decide

example : fmt04 7 = "0007" ∧ fmt04 12345 = "12345" := by decide

example : sortFiles ["b.dcm", "a.dcm", "c.dcm"] = ["a.dcm", "b.dcm", "c.dcm"] := by decide

/-! ### Concrete records used by the claim witnesses -/

/-! ### Claim theorems -/

/-- Claim C2: for every timestamp token and raw session token, the value
written into `PatientID` by `anonymise` is `{token}{raw_session_token}M`
with one trailing space appended exactly when that concatenation has odd
length, and every `PatientID` value emitted this way has even length. -/
theorem C2_patient_id_even_padding (token raw : String) (d : DicomRecord)
    (sex age : String) (d' : DicomRecord)
    (h : anonymise d sex age (token ++ raw ++ "M") = .ok d') :
    getVal d'.fields "PatientID" =
      some (if (token ++ raw ++ "M").length % 2 = 0 then token ++ raw ++ "M"
            else (token ++ raw ++ "M") ++ " ") ∧
    ∃ v, getVal d'.fields "PatientID" = some v ∧ v.length % 2 = 0 := by
  have H := anonymise_ok_elim d sex age (token ++ raw ++ "M") d' h
  have e : d'.fields = anonFields d.fields sex age (token ++ raw ++ "M") := by
    rw [H.2.2.2]
  constructor
  · rw [e, getVal_anonFields_pid _ _ _ _ H.2.2.1]
    rfl
  · exact ⟨padPid (token ++ raw ++ "M"),
      by rw [e, getVal_anonFields_pid _ _ _ _ H.2.2.1], padPid_even _⟩

theorem C2_witness :
    (anonymise c4d "F" "34" ("250419093038" ++ "12" ++ "M") = .ok c2d2) ∧
    getVal c2d2.fields "PatientID" =
      some (if (("250419093038" ++ "12" ++ "M") : String).length % 2 = 0
            then "250419093038" ++ "12" ++ "M"
            else (("250419093038" ++ "12" ++ "M") : String) ++ " ") ∧
    ∃ v, getVal c2d2.fields "PatientID" = some v ∧ v.length % 2 = 0 := by
  refine ⟨by decide, ?_, ?_⟩
  · exact (C2_patient_id_even_padding "250419093038" "12" c4d "F" "34" c2d2
      (by decide)).1
  · exact (C2_patient_id_even_padding "250419093038" "12" c4d "F" "34" c2d2
      (by decide)).2

/-- Claim C4: redaction is idempotent: a second application of `anonymise`
with the same arguments to an already-anonymised record succeeds and
changes nothing; absent redaction fields are skipped without error. -/
theorem C4_anonymise_idempotent (d : DicomRecord) (sex age patient_id : String)
    (d' : DicomRecord) (h : anonymise d sex age patient_id = .ok d') :
    anonymise d' sex age patient_id = .ok d' := by
  have H := anonymise_ok_elim d sex age patient_id d' h
  have ef : d'.fields = anonFields d.fields sex age patient_id := by rw [H.2.2.2]
  have em : d'.fileMeta = delFields META_FIELDS d.fileMeta := by rw [H.2.2.2]
  have ep : d'.privateTags = [] := by rw [H.2.2.2]
  have hrf := redactedFields_anonFields d.fields sex age patient_id
  have hv1 : valAt (anonFields d.fields sex age patient_id) "PatientSex"
      (sex ++ " ") := by
    unfold anonFields
    exact valAt_setVal_ne _ _ _ _ _ (by decide)
      (valAt_setVal_ne _ _ _ _ _ (by decide) (valAt_setVal_self _ _ _))
  have hv2 : valAt (anonFields d.fields sex age patient_id) "PatientAge"
      (zfill age 3 ++ "Y") := by
    unfold anonFields
    exact valAt_setVal_ne _ _ _ _ _ (by decide) (valAt_setVal_self _ _ _)
  have hv3 : valAt (anonFields d.fields sex age patient_id) "PatientID"
      (padPid patient_id) := by
    unfold anonFields
    exact valAt_setVal_self _ _ _
  have hK1 : hasKey d'.fields "PatientSex" = true := by
    rw [ef, hasKey_anonFields _ _ _ _ _ (by decide) (by decide)]; exact H.1
  have hK2 : hasKey d'.fields "PatientAge" = true := by
    rw [ef, hasKey_anonFields _ _ _ _ _ (by decide) (by decide)]; exact H.2.1
  have hK3 : hasKey d'.fields "PatientID" = true := by
    rw [ef, hasKey_anonFields _ _ _ _ _ (by decide) (by decide)]; exact H.2.2.1
  have hfix : anonFields d'.fields sex age patient_id = d'.fields := by
    rw [ef]
    exact anonFields_fixedpoint _ _ _ _ hrf hv1 hv2 hv3
  have hm : delFields META_FIELDS d'.fileMeta = d'.fileMeta := by
    rw [em]
    exact delFields_meta_idem d.fileMeta
  rw [anonymise_eq_ok d' sex age patient_id hK1 hK2 hK3, hfix, hm, ← ep]

theorem C4_witness :
    (anonymise c4d "F" "34" "p" = .ok c4d2) ∧
    anonymise c4d2 "F" "34" "p" = .ok c4d2 :=
  ⟨by decide, C4_anonymise_idempotent c4d "F" "34" "p" c4d2 (by decide)⟩

/-- Claim C5 counterexample: on a record with no `PatientSex` element,
`anonymise` does not create the field: the bracket access raises
`KeyError` and the call fails instead of succeeding. -/
theorem C5_counterexample :
    anonymise ⟨[("PatientAge", "034"), ("PatientID", "X")], [], []⟩ "F" "34" "p"
      = .error "KeyError: PatientSex" := by decide

/-- Claim C5 (amended): when the sex, age and patient-identifier fields are
all present, `anonymise` succeeds and writes the normalized sex code, age
value and pseudonymous identifier into them; when one of these fields is
absent the call fails with a `KeyError` instead of creating it. -/
theorem C5_amended_writes (d : DicomRecord) (sex age patient_id : String)
    (h1 : hasKey d.fields "PatientSex" = true)
    (h2 : hasKey d.fields "PatientAge" = true)
    (h3 : hasKey d.fields "PatientID" = true) :
    ∃ d', anonymise d sex age patient_id = .ok d' ∧
      getVal d'.fields "PatientSex" = some (sex ++ " ") ∧
      getVal d'.fields "PatientAge" = some (zfill age 3 ++ "Y") ∧
      getVal d'.fields "PatientID" = some (padPid patient_id) := by
  have e : (⟨anonFields d.fields sex age patient_id,
      delFields META_FIELDS d.fileMeta,
      ([] : List (String × String))⟩ : DicomRecord).fields =
      anonFields d.fields sex age patient_id := rfl
  refine ⟨_, anonymise_eq_ok d sex age patient_id h1 h2 h3, ?_, ?_, ?_⟩
  · rw [e]; exact getVal_anonFields_sex _ _ _ _ h1
  · rw [e]; exact getVal_anonFields_age _ _ _ _ h2
  · rw [e]; exact getVal_anonFields_pid _ _ _ _ h3

theorem C5_witness :
    (hasKey c4d.fields "PatientSex" = true) ∧
    ∃ d', anonymise c4d "F" "34" "p" = .ok d' ∧
      getVal d'.fields "PatientSex" = some ("F" ++ " ") ∧
      getVal d'.fields "PatientAge" = some (zfill "34" 3 ++ "Y") ∧
      getVal d'.fields "PatientID" = some (padPid "p") :=
  ⟨by decide, C5_amended_writes c4d "F" "34" "p" (by decide) (by decide) (by decide)⟩

theorem padPid_ne_of_odd (p : String) (h : p.length % 2 = 1) :
    padPid p ≠ p := by
  unfold padPid
  rw [if_neg (by omega)]
  intro he
  have hl := congrArg String.length he
  rw [String.length_append] at hl
  have hs : (" " : String).length = 1 := rfl
  rw [hs] at hl
  omega

/-- Claim C1, evaluated at the failing input: when substituting one series
category for the other in the session directory yields the previously
recorded directory, the not-new branch never assigns `date_time`, so the
per-file loop raises `UnboundLocalError` for every file: the previous
token is not reused, no file is written, and every file lands in the
failure list. -/
theorem C1_not_new_unbound_local :
    process_folder c1fs ["250419093038"] "D/1 F 2/T2_AX/EXP00000" ["a.dcm"]
      "Dataset" ("T2_AX", "T2_SAG") "D/1 F 2/T2_SAG/EXP00000" "old" =
      some ⟨["D/1 F 2/T2_AX/EXP00000/a.dcm: UnboundLocalError: date_time"],
            [], []⟩ := by
  decide

/-- Claim C7: a session directory with an empty file list is returned
immediately as the empty-directory singleton with an empty failure list
and no written output; and in every invocation at most one of the two
returned lists is non-empty. -/
theorem C7_empty_session (fsys : String → Except String DicomRecord)
    (clock : List String) (root : String) (files : List String)
    (argPath : String) (cat : String × String)
    (last_directory last_date_time : String) :
    (files = [] →
      process_folder fsys clock root files argPath cat last_directory
        last_date_time = some ⟨[], [root], []⟩) ∧
    ∀ r, process_folder fsys clock root files argPath cat last_directory
        last_date_time = some r →
      r.problematic = [] ∨ r.empty_dir = [] := by
  constructor
  · intro h
    subst h
    rfl
  · intro r hr
    by_cases h : files = []
    · subst h
      unfold process_folder at hr
      rw [if_pos rfl] at hr
      injection hr with hr
      subst hr
      left
      rfl
    · right
      unfold process_folder at hr
      rw [if_neg h] at hr
      cases htc : tokenChoice clock root cat last_directory last_date_time with
      | none => rw [htc] at hr; cases hr
      | some dt =>
        rw [htc] at hr
        injection hr with hr
        subst hr
        rfl

theorem C7_witness :
    (process_folder c1fs ["250419093038"] "D/3 M 4/T2_AX/EXP00000" []
      "Dataset" ("T2_AX", "T2_SAG") "" "" =
      some ⟨[], ["D/3 M 4/T2_AX/EXP00000"], []⟩) ∧
    (([] : List String) = [] → process_folder c1fs ["250419093038"]
      "D/3 M 4/T2_AX/EXP00000" [] "Dataset" ("T2_AX", "T2_SAG") "" "" =
      some ⟨[], ["D/3 M 4/T2_AX/EXP00000"], []⟩) := by
  refine ⟨?_, (C7_empty_session c1fs ["250419093038"] "D/3 M 4/T2_AX/EXP00000"
    [] "Dataset" ("T2_AX", "T2_SAG") "" "").1⟩
  exact (C7_empty_session c1fs ["250419093038"] "D/3 M 4/T2_AX/EXP00000"
    [] "Dataset" ("T2_AX", "T2_SAG") "" "").1 rfl

/-- Claim C10: for every file successfully processed, the output directory
is computed by substituting the raw session token with the *unpadded*
identifier `{token}{raw_session_token}M`, while the `PatientID` value
stored in the written record is the evenness-padded identifier; when the
unpadded identifier has odd length the two differ. -/
theorem C10_dir_unpadded_field_padded
    (fsys : String → Except String DicomRecord) (root argPath dt : String)
    (filename name4 dir name : String) (rec : DicomRecord)
    (h : processFile fsys root argPath (some dt) filename name4 =
      .ok (dir, name, rec)) :
    ∃ mater_id sex age,
      extract_id_sex_age (pjoin root filename) = some (mater_id, sex, age) ∧
      dir = savePath (pjoin root filename) argPath mater_id
        (dt ++ mater_id ++ "M") ∧
      getVal rec.fields "PatientID" =
        some (padPid (dt ++ mater_id ++ "M")) ∧
      ((dt ++ mater_id ++ "M").length % 2 = 1 →
        padPid (dt ++ mater_id ++ "M") ≠ dt ++ mater_id ++ "M") := by
  unfold processFile at h
  cases hfs : fsys (pjoin root filename) with
  | error e => simp [hfs] at h
  | ok x =>
    cases hex : extract_id_sex_age (pjoin root filename) with
    | none => simp [hfs, hex] at h
    | some t =>
      obtain ⟨mater_id, sex, age⟩ := t
      cases han : anonymise x sex age (dt ++ mater_id ++ "M") with
      | error e => simp [hfs, hex, han] at h
      | ok anonym =>
        simp only [hfs, hex, han, Except.ok.injEq, Prod.mk.injEq] at h
        obtain ⟨h1, _, h3⟩ := h
        refine ⟨mater_id, sex, age, rfl, h1.symm, ?_, padPid_ne_of_odd _⟩
        have H := anonymise_ok_elim x sex age (dt ++ mater_id ++ "M") anonym han
        have e : anonym.fields =
            anonFields x.fields sex age (dt ++ mater_id ++ "M") := by
          rw [H.2.2.2]
        rw [← h3, e, getVal_anonFields_pid _ _ _ _ H.2.2.1]

theorem C10_witness :
    (processFile c1fs "Data/12 F 034/T2_AX" "Data" (some "250419093038")
      "a.dcm" "0000" =
      .ok ("Anonymised/25041909303812M F 034/T2_AX/a.dcm", "EXP0000.dcm", c2d2)) ∧
    ∃ mater_id sex age,
      extract_id_sex_age (pjoin "Data/12 F 034/T2_AX" "a.dcm") =
        some (mater_id, sex, age) ∧
      "Anonymised/25041909303812M F 034/T2_AX/a.dcm" =
        savePath (pjoin "Data/12 F 034/T2_AX" "a.dcm") "Data" mater_id
          ("250419093038" ++ mater_id ++ "M") ∧
      getVal c2d2.fields "PatientID" =
        some (padPid ("250419093038" ++ mater_id ++ "M")) ∧
      (("250419093038" ++ mater_id ++ "M").length % 2 = 1 →
        padPid ("250419093038" ++ mater_id ++ "M") ≠
          "250419093038" ++ mater_id ++ "M") :=
  ⟨by decide, C10_dir_unpadded_field_padded c1fs "Data/12 F 034/T2_AX" "Data"
    "250419093038" "a.dcm" "0000"
    "Anonymised/25041909303812M F 034/T2_AX/a.dcm" "EXP0000.dcm" c2d2 (by decide)⟩

theorem replaceAll_ne_empty (s pat repl : String) (hs : s ≠ "") (hr : repl ≠ "") :
    replaceAll s pat repl ≠ "" := by
  cases s with | mk data =>
  cases data with
  | nil => exact absurd rfl hs
  | cons c cs =>
    intro he
    have hd : replGo pat.toList repl.toList (c :: cs).length (c :: cs) = [] :=
      congrArg String.data he
    rw [List.length_cons] at hd
    by_cases hm : pat.toList ≠ [] ∧ startsWithL pat.toList (c :: cs) = true
    · rw [replGo, if_pos hm] at hd
      rcases List.append_eq_nil.mp hd with ⟨h1, _⟩
      apply hr
      cases repl with | mk rdata =>
      cases rdata with
      | nil => rfl
      | cons r rs => exact absurd h1 (by simp [String.toList])
    · rw [replGo, if_neg hm] at hd
      cases hd

theorem ne_empty_of_marker (s : String) (h : containsSub s "EXP00000" = true) :
    s ≠ "" := by
  intro he
  subst he
  exact absurd h (by decide)

theorem sameAsLast_false_of_ne_empty (root : String) (h : root ≠ "") :
    sameAsLast root ("T2_AX", "T2_SAG") "" = false := by
  unfold sameAsLast
  have h1 : replaceAll root "T2_AX" "T2_SAG" ≠ "" :=
    replaceAll_ne_empty root _ _ h (by decide)
  have h2 : replaceAll root "T2_SAG" "T2_AX" ≠ "" :=
    replaceAll_ne_empty root _ _ h (by decide)
  simp [h1, h2]

/-- Claim C9: every work item built by `main` carries an empty previous
directory and an empty previous token; for such an item the novelty check
never classifies the session as a repeat (the session directory contains
the `EXP00000` marker and is non-empty, while the recorded previous
directory is empty), so the token-reuse branch is unreachable and the
token is always freshly generated from the clock. -/
theorem C9_driver_always_new (walk : List (String × List String))
    (argPath : String)
    (item : String × List String × String × (String × String) × String × String)
    (hmem : item ∈ mainWorkItems walk argPath) :
    item.2.2.1 = argPath ∧
    item.2.2.2.1 = ("T2_AX", "T2_SAG") ∧
    item.2.2.2.2.1 = "" ∧
    item.2.2.2.2.2 = "" ∧
    sameAsLast item.1 ("T2_AX", "T2_SAG") "" = false ∧
    ∀ clock : List String,
      tokenChoice clock item.1 ("T2_AX", "T2_SAG") "" "" =
        (genToken clock "").map some := by
  unfold mainWorkItems discoverRoots at hmem
  obtain ⟨rf, hrf, hf⟩ := List.mem_map.mp hmem
  have hmark : containsSub rf.1 "EXP00000" = true := by
    simpa using List.of_mem_filter hrf
  have hroot : item.1 = rf.1 := by rw [← hf]
  have hne : item.1 ≠ "" := by rw [hroot]; exact ne_empty_of_marker rf.1 hmark
  have hsame := sameAsLast_false_of_ne_empty item.1 hne
  refine ⟨by rw [← hf], by rw [← hf], by rw [← hf], by rw [← hf], hsame, ?_⟩
  intro clock
  unfold tokenChoice
  rw [if_neg (by rw [hsame]; exact Bool.false_ne_true)]

theorem C9_witness :
    (("D/5 M 6/T2_AX/EXP00000", ["a.dcm"], "Dataset", ("T2_AX", "T2_SAG"),
        "", "") ∈
      mainWorkItems [("D/5 M 6/T2_AX/EXP00000", ["a.dcm"]), ("skip", [])]
        "Dataset") ∧
    sameAsLast "D/5 M 6/T2_AX/EXP00000" ("T2_AX", "T2_SAG") "" = false ∧
    tokenChoice ["250419093038"] "D/5 M 6/T2_AX/EXP00000" ("T2_AX", "T2_SAG")
        "" "" = (genToken ["250419093038"] "").map some := by
  have hmem : (("D/5 M 6/T2_AX/EXP00000", ["a.dcm"], "Dataset",
      ("T2_AX", "T2_SAG"), "", "") :
      String × List String × String × (String × String) × String × String) ∈
      mainWorkItems [("D/5 M 6/T2_AX/EXP00000", ["a.dcm"]), ("skip", [])]
        "Dataset" := by decide
  have H := C9_driver_always_new
    [("D/5 M 6/T2_AX/EXP00000", ["a.dcm"]), ("skip", [])] "Dataset" _ hmem
  exact ⟨hmem, H.2.2.2.2.1, H.2.2.2.2.2 ["250419093038"]⟩

/-! ### Order lemmas for the lexicographic file sort -/

theorem charToNat_inj (a b : Char) (h : a.toNat = b.toNat) : a = b :=
  Char.eq_of_val_eq (UInt32.ext h)

theorem leCharL_total (a : List Char) : ∀ b : List Char,
    leCharL a b = true ∨ leCharL b a = true := by
  induction a with
  | nil => intro b; left; rfl
  | cons a as ih =>
    intro b
    cases b with
    | nil => right; rfl
    | cons b bs =>
      rcases Nat.lt_trichotomy a.toNat b.toNat with h | h | h
      · left; simp [leCharL, Nat.blt_eq, h]
      · have hab : a = b := charToNat_inj _ _ h
        subst hab
        rcases ih bs with h' | h'
        · left; simp [leCharL, h']
        · right; simp [leCharL, h']
      · right; simp [leCharL, Nat.blt_eq, h]

theorem leCharL_antisymm (a : List Char) : ∀ b : List Char,
    leCharL a b = true → leCharL b a = true → a = b := by
  induction a with
  | nil =>
    intro b h1 _
    cases b with
    | nil => rfl
    | cons b bs => simp [leCharL] at *
  | cons a as ih =>
    intro b h1 h2
    cases b with
    | nil => simp [leCharL] at h1
    | cons b bs =>
      simp only [leCharL, Bool.or_eq_true, Bool.and_eq_true, Nat.blt_eq,
        beq_iff_eq] at h1 h2
      rcases h1 with h1 | ⟨h1e, h1r⟩
      · rcases h2 with h2 | ⟨h2e, _⟩
        · omega
        · subst h2e; omega
      · subst h1e
        rcases h2 with h2 | ⟨_, h2r⟩
        · omega
        · rw [ih bs h1r h2r]

theorem leCharL_trans (a : List Char) : ∀ b c : List Char,
    leCharL a b = true → leCharL b c = true → leCharL a c = true := by
  induction a with
  | nil => intro b c _ _; rfl
  | cons a as ih =>
    intro b c h1 h2
    cases b with
    | nil => simp [leCharL] at h1
    | cons b bs =>
      cases c with
      | nil => simp [leCharL] at h2
      | cons c cs =>
        simp only [leCharL, Bool.or_eq_true, Bool.and_eq_true, Nat.blt_eq,
          beq_iff_eq] at h1 h2 ⊢
        rcases h1 with h1 | ⟨h1e, h1r⟩
        · rcases h2 with h2 | ⟨h2e, _⟩
          · left; omega
          · subst h2e; left; exact h1
        · subst h1e
          rcases h2 with h2 | ⟨h2e, h2r⟩
          · left; exact h2
          · subst h2e; right; exact ⟨rfl, ih bs cs h1r h2r⟩

theorem leStr_total (a b : String) : leStr a b = true ∨ leStr b a = true :=
  leCharL_total a.toList b.toList

theorem leStr_antisymm (a b : String) (h1 : leStr a b = true)
    (h2 : leStr b a = true) : a = b := by
  have h := leCharL_antisymm a.toList b.toList h1 h2
  cases a with | mk da =>
  cases b with | mk db =>
  exact congrArg String.mk h

theorem leStr_trans (a b c : String) (h1 : leStr a b = true)
    (h2 : leStr b c = true) : leStr a c = true :=
  leCharL_trans a.toList b.toList c.toList h1 h2

theorem insertSorted_perm (a : String) (l : List String) :
    List.Perm (insertSorted a l) (a :: l) := by
  induction l with
  | nil => exact List.Perm.refl _
  | cons b bs ih =>
    unfold insertSorted
    by_cases h : leStr a b = true
    · rw [if_pos h]
    · rw [if_neg h]
      exact (List.Perm.cons b ih).trans (List.Perm.swap a b bs)

theorem sortFiles_perm (l : List String) : List.Perm (sortFiles l) l := by
  induction l with
  | nil => exact List.Perm.refl _
  | cons a as ih =>
    exact (insertSorted_perm a (sortFiles as)).trans (List.Perm.cons a ih)

theorem sortFiles_length (l : List String) :
    (sortFiles l).length = l.length :=
  (sortFiles_perm l).length_eq

theorem sorted_insertSorted (a : String) (l : List String)
    (h : List.Pairwise (fun x y => leStr x y = true) l) :
    List.Pairwise (fun x y => leStr x y = true) (insertSorted a l) := by
  induction l with
  | nil => simp [insertSorted]
  | cons b bs ih =>
    rw [List.pairwise_cons] at h
    unfold insertSorted
    by_cases hab : leStr a b = true
    · rw [if_pos hab]
      rw [List.pairwise_cons]
      refine ⟨?_, List.pairwise_cons.mpr h⟩
      intro x hx
      rcases List.mem_cons.mp hx with rfl | hx
      · exact hab
      · exact leStr_trans a b x hab (h.1 x hx)
    · rw [if_neg hab]
      have hba : leStr b a = true := by
        rcases leStr_total a b with h' | h'
        · exact absurd h' hab
        · exact h'
      rw [List.pairwise_cons]
      refine ⟨?_, ih h.2⟩
      intro x hx
      rcases List.mem_cons.mp ((insertSorted_perm a bs).mem_iff.mp hx)
        with rfl | hx'
      · exact hba
      · exact h.1 x hx'

theorem sortFiles_sorted (l : List String) :
    List.Pairwise (fun x y => leStr x y = true) (sortFiles l) := by
  induction l with
  | nil => exact List.Pairwise.nil
  | cons a as ih => exact sorted_insertSorted a (sortFiles as) ih

theorem sortFiles_perm_eq (l l' : List String) (h : List.Perm l l') :
    sortFiles l = sortFiles l' := by
  haveI : IsAntisymm String (fun a b => leStr a b = true) :=
    ⟨fun a b h1 h2 => leStr_antisymm a b h1 h2⟩
  exact List.eq_of_perm_of_sorted
    ((sortFiles_perm l).trans (h.trans (sortFiles_perm l').symm))
    (sortFiles_sorted l) (sortFiles_sorted l')

/-! ### Lemmas about the per-file loop -/

theorem runFiles_count (fsys : String → Except String DicomRecord)
    (root argPath : String) (dt : Option String) :
    ∀ (l : List String) (i : Nat),
      (runFiles fsys root argPath dt i l).1.length +
        (runFiles fsys root argPath dt i l).2.length = l.length := by
  intro l
  induction l with
  | nil => intro i; rfl
  | cons f rest ih =>
    intro i
    unfold runFiles
    cases h : processFile fsys root argPath dt f (fmt04 i) with
    | ok out =>
      simp only [h, List.length_cons]
      have := ih (i + 1)
      omega
    | error e =>
      simp only [h, List.length_cons]
      have := ih (i + 1)
      omega

theorem runFiles_prob_shape (fsys : String → Except String DicomRecord)
    (root argPath : String) (dt : Option String) :
    ∀ (l : List String) (i : Nat) (e : String),
      e ∈ (runFiles fsys root argPath dt i l).1 →
      ∃ f ∈ l, ∃ msg, e = pjoin root f ++ ": " ++ msg := by
  intro l
  induction l with
  | nil => intro i e he; simp [runFiles] at he
  | cons f rest ih =>
    intro i e he
    unfold runFiles at he
    cases h : processFile fsys root argPath dt f (fmt04 i) with
    | ok out =>
      simp only [h] at he
      obtain ⟨g, hg, msg, hmsg⟩ := ih (i + 1) e he
      exact ⟨g, by simp [hg], msg, hmsg⟩
    | error err =>
      simp only [h] at he
      rcases List.mem_cons.mp he with rfl | he'
      · exact ⟨f, by simp, err, rfl⟩
      · obtain ⟨g, hg, msg, hmsg⟩ := ih (i + 1) e he'
        exact ⟨g, by simp [hg], msg, hmsg⟩

theorem runFiles_all_ok (fsys : String → Except String DicomRecord)
    (root argPath : String) (dt : Option String) :
    ∀ (l : List String) (i : Nat),
      (runFiles fsys root argPath dt i l).1 = [] →
      (runFiles fsys root argPath dt i l).2.length = l.length ∧
      ∀ (j : Nat) (g : String), l.get? j = some g →
        ∃ out, (runFiles fsys root argPath dt i l).2.get? j = some out ∧
          processFile fsys root argPath dt g (fmt04 (i + j)) = .ok out := by
  intro l
  induction l with
  | nil =>
    intro i _
    exact ⟨rfl, fun j g hg => by simp at hg⟩
  | cons f rest ih =>
    intro i hp
    unfold runFiles at hp
    cases h : processFile fsys root argPath dt f (fmt04 i) with
    | error err =>
      simp only [h] at hp
      cases hp
    | ok out =>
      simp only [h] at hp
      obtain ⟨hlen, hpt⟩ := ih (i + 1) hp
      have hrw : runFiles fsys root argPath dt i (f :: rest) =
          ((runFiles fsys root argPath dt (i + 1) rest).1,
           out :: (runFiles fsys root argPath dt (i + 1) rest).2) := by
        simp only [runFiles, h]
      rw [hrw]
      constructor
      · simp [hlen]
      · intro j g hg
        cases j with
        | zero =>
          have hg' : some f = some g := hg
          injection hg' with hg'
          subst hg'
          exact ⟨out, rfl, by rw [Nat.add_zero]; exact h⟩
        | succ j =>
          have hg' : rest.get? j = some g := hg
          obtain ⟨o, ho1, ho2⟩ := hpt j g hg'
          refine ⟨o, ho1, ?_⟩
          have harith : i + (j + 1) = (i + 1) + j := by omega
          rw [harith]
          exact ho2

theorem processFile_ok_name (fsys : String → Except String DicomRecord)
    (root argPath : String) (dto : Option String) (filename name4 : String)
    (out : String × String × DicomRecord)
    (h : processFile fsys root argPath dto filename name4 = .ok out) :
    out.2.1 = "EXP" ++ name4 ++ ".dcm" := by
  unfold processFile at h
  cases hfs : fsys (pjoin root filename) with
  | error e => simp [hfs] at h
  | ok x =>
    cases hex : extract_id_sex_age (pjoin root filename) with
    | none => simp [hfs, hex] at h
    | some t =>
      obtain ⟨mid, sx, ag⟩ := t
      cases dto with
      | none => simp [hfs, hex] at h
      | some dt =>
        cases han : anonymise x sx ag (dt ++ mid ++ "M") with
        | error e => simp [hfs, hex, han] at h
        | ok anonym =>
          simp only [hfs, hex, han, Except.ok.injEq] at h
          rw [← h]

theorem zfill_length (s : String) (w : Nat) (h : s.length ≤ w) :
    (zfill s w).length = w := by
  unfold zfill
  show (List.replicate (w - s.length) '0' ++ s.toList).length = w
  rw [List.length_append, List.length_replicate]
  have hs : s.toList.length = s.length := rfl
  omega

theorem fmt04_length (j : Nat) (h : j < 10000) : (fmt04 j).length = 4 := by
  unfold fmt04
  apply zfill_length
  have he : toString j = Nat.repr j := rfl
  rw [he]
  exact Nat.repr_length j 4 (by omega) (by omega)

/-- Claim C3: every per-file failure is caught inside `process_folder`,
recorded as the file's original path plus the error text, and does not
stop the remaining files: failures and written outputs partition the
session's file list. -/
theorem C3_per_file_failure_isolation
    (fsys : String → Except String DicomRecord) (clock : List String)
    (root : String) (files : List String) (argPath : String)
    (cat : String × String) (last_directory last_date_time : String)
    (r : FolderResult)
    (h : process_folder fsys clock root files argPath cat last_directory
      last_date_time = some r) :
    r.problematic.length + r.outputs.length = files.length ∧
    ∀ e ∈ r.problematic, ∃ f ∈ files, ∃ msg, e = pjoin root f ++ ": " ++ msg := by
  by_cases hne : files = []
  · subst hne
    unfold process_folder at h
    rw [if_pos rfl] at h
    injection h with h
    subst h
    exact ⟨rfl, fun e he => absurd he (by simp)⟩
  · unfold process_folder at h
    rw [if_neg hne] at h
    cases htc : tokenChoice clock root cat last_directory last_date_time with
    | none => rw [htc] at h; cases h
    | some dt =>
      rw [htc] at h
      injection h with h
      subst h
      constructor
      · have hc := runFiles_count fsys root argPath dt (sortFiles files) 0
        rw [sortFiles_length] at hc
        exact hc
      · intro e he
        obtain ⟨f, hf, msg, hmsg⟩ :=
          runFiles_prob_shape fsys root argPath dt (sortFiles files) 0 e he
        exact ⟨f, (sortFiles_perm files).mem_iff.mp hf, msg, hmsg⟩

theorem C3_witness :
    (process_folder c3fs ["250419093038"] "Dataset/12 F 034/T2_AX/EXP00000"
      ["c.dcm", "a.dcm", "b.dcm", "d.dcm"] "Dataset" ("T2_AX", "T2_SAG") "" "" =
      some c3res) ∧
    c3res.problematic = ["Dataset/12 F 034/T2_AX/EXP00000/b.dcm: load error"] ∧
    c3res.outputs.length = 3 ∧
    c3res.problematic.length + c3res.outputs.length =
      (["c.dcm", "a.dcm", "b.dcm", "d.dcm"] : List String).length ∧
    ∀ e ∈ c3res.problematic,
      ∃ f ∈ (["c.dcm", "a.dcm", "b.dcm", "d.dcm"] : List String), ∃ msg,
        e = pjoin "Dataset/12 F 034/T2_AX/EXP00000" f ++ ": " ++ msg := by
  have H := C3_per_file_failure_isolation c3fs ["250419093038"]
    "Dataset/12 F 034/T2_AX/EXP00000" ["c.dcm", "a.dcm", "b.dcm", "d.dcm"]
    "Dataset" ("T2_AX", "T2_SAG") "" "" c3res (by decide)
  exact ⟨by decide, by decide, by decide, H.1, H.2⟩

/-- Claim C6: in a fully successful session the output count equals the
input count, the result is invariant under permutations of the listed
files (the loop sorts them first), and the file at position `j` of the
lexicographically sorted input is written as output `j` under the fixed
prefix plus the zero-padded index `j` (four digits for indices below
10000). -/
theorem C6_sorted_sequential_naming
    (fsys : String → Except String DicomRecord) (clock : List String)
    (root : String) (files : List String) (argPath : String)
    (cat : String × String) (last_directory last_date_time : String)
    (r : FolderResult)
    (h : process_folder fsys clock root files argPath cat last_directory
      last_date_time = some r)
    (hok : r.problematic = []) :
    r.outputs.length = files.length ∧
    (∀ files', List.Perm files' files →
      process_folder fsys clock root files' argPath cat last_directory
        last_date_time = some r) ∧
    ∃ dt : Option String, ∀ (j : Nat) (g : String),
      (sortFiles files).get? j = some g →
      ∃ out, r.outputs.get? j = some out ∧
        processFile fsys root argPath dt g (fmt04 j) = .ok out ∧
        out.2.1 = "EXP" ++ fmt04 j ++ ".dcm" ∧
        (j < 10000 → (fmt04 j).length = 4) := by
  by_cases hne : files = []
  · subst hne
    unfold process_folder at h
    rw [if_pos rfl] at h
    injection h with h
    subst h
    refine ⟨rfl, ?_, none, ?_⟩
    · intro files' hperm
      have he : files' = [] := List.Perm.eq_nil hperm
      subst he
      rfl
    · intro j g hg
      simp [sortFiles] at hg
  · unfold process_folder at h
    rw [if_neg hne] at h
    cases htc : tokenChoice clock root cat last_directory last_date_time with
    | none => rw [htc] at h; cases h
    | some dt =>
      rw [htc] at h
      injection h with h
      subst h
      have hok' : (runFiles fsys root argPath dt 0 (sortFiles files)).1 = [] :=
        hok
      obtain ⟨hlen, hpt⟩ :=
        runFiles_all_ok fsys root argPath dt (sortFiles files) 0 hok'
      refine ⟨?_, ?_, dt, ?_⟩
      · show (runFiles fsys root argPath dt 0 (sortFiles files)).2.length =
          files.length
        rw [hlen, sortFiles_length]
      · intro files' hperm
        have hne' : files' ≠ [] := fun he =>
          hne (List.Perm.eq_nil (he ▸ hperm.symm))
        unfold process_folder
        rw [if_neg hne', htc, sortFiles_perm_eq files' files hperm]
      · intro j g hg
        obtain ⟨out, ho1, ho2⟩ := hpt j g hg
        rw [Nat.zero_add] at ho2
        exact ⟨out, ho1, ho2,
          processFile_ok_name fsys root argPath dt g (fmt04 j) out ho2,
          fmt04_length j⟩

theorem C6_witness :
    (process_folder c1fs ["250419093038"] "Dataset/12 F 034/T2_AX/EXP00000"
      ["b.dcm", "a.dcm"] "Dataset" ("T2_AX", "T2_SAG") "" "" = some c6res) ∧
    c6res.outputs.length = 2 ∧
    (process_folder c1fs ["250419093038"] "Dataset/12 F 034/T2_AX/EXP00000"
      ["a.dcm", "b.dcm"] "Dataset" ("T2_AX", "T2_SAG") "" "" = some c6res) ∧
    ∃ dt : Option String, ∀ (j : Nat) (g : String),
      (sortFiles ["b.dcm", "a.dcm"]).get? j = some g →
      ∃ out, c6res.outputs.get? j = some out ∧
        processFile c1fs "Dataset/12 F 034/T2_AX/EXP00000" "Dataset" dt g
          (fmt04 j) = .ok out ∧
        out.2.1 = "EXP" ++ fmt04 j ++ ".dcm" ∧
        (j < 10000 → (fmt04 j).length = 4) := by
  have H := C6_sorted_sequential_naming c1fs ["250419093038"]
    "Dataset/12 F 034/T2_AX/EXP00000" ["b.dcm", "a.dcm"] "Dataset"
    ("T2_AX", "T2_SAG") "" "" c6res (by decide) (by decide)
  exact ⟨by decide, H.1, H.2.1 ["a.dcm", "b.dcm"] (by decide), H.2.2⟩

/-! ### Extractor lemmas -/

theorem isEmpty_false_of_ne_nil (l : List Char) (h : l ≠ []) :
    l.isEmpty = false := by
  cases l with
  | nil => exact absurd rfl h
  | cons c cs => rfl

theorem takeWhile_all_append (p : Char → Bool) (l1 : List Char) (c0 : Char)
    (l2 : List Char) (h : ∀ c ∈ l1, p c = true) (hc : p c0 = false) :
    (l1 ++ c0 :: l2).takeWhile p = l1 := by
  induction l1 with
  | nil => simp [List.takeWhile, hc]
  | cons a as ih =>
    have ha : p a = true := h a (by simp)
    rw [List.cons_append, List.takeWhile_cons_of_pos ha,
      ih fun c hc' => h c (by simp [hc'])]

theorem dropWhile_all_append (p : Char → Bool) (l1 : List Char) (c0 : Char)
    (l2 : List Char) (h : ∀ c ∈ l1, p c = true) (hc : p c0 = false) :
    (l1 ++ c0 :: l2).dropWhile p = c0 :: l2 := by
  induction l1 with
  | nil => simp [List.dropWhile, hc]
  | cons a as ih =>
    have ha : p a = true := h a (by simp)
    rw [List.cons_append, List.dropWhile_cons_of_pos ha]
    exact ih fun c hc' => h c (by simp [hc'])

theorem takeWhile_append_all (p : Char → Bool) (l1 l2 : List Char)
    (h : ∀ c ∈ l1, p c = true) :
    (l1 ++ l2).takeWhile p = l1 ++ l2.takeWhile p := by
  induction l1 with
  | nil => rfl
  | cons a as ih =>
    have ha : p a = true := h a (by simp)
    rw [List.cons_append, List.takeWhile_cons_of_pos ha,
      ih fun c hc' => h c (by simp [hc']), List.cons_append]

theorem mem_takeWhile_digit (p : Char → Bool) (l : List Char) :
    ∀ c ∈ l.takeWhile p, p c = true := by
  induction l with
  | nil => intro c hc; simp [List.takeWhile] at hc
  | cons a as ih =>
    intro c hc
    simp only [List.takeWhile] at hc
    cases ha : p a with
    | false => rw [ha] at hc; simp at hc
    | true =>
      rw [ha] at hc
      rcases List.mem_cons.mp hc with rfl | hc'
      · exact ha
      · exact ih c hc'

theorem matchAt_of_decomp (d1 : List Char) (sx : Char) (d2 post : List Char)
    (h1 : d1 ≠ []) (h2 : ∀ c ∈ d1, c.isDigit = true)
    (h3 : d2 ≠ []) (h4 : ∀ c ∈ d2, c.isDigit = true) :
    matchAt (d1 ++ ' ' :: sx :: ' ' :: (d2 ++ post)) =
      if sx = 'F' ∨ sx = 'M' then
        some (d1, sx, d2 ++ post.takeWhile Char.isDigit)
      else none := by
  have hsp : (' ' : Char).isDigit = false := by decide
  have ht : (d1 ++ ' ' :: sx :: ' ' :: (d2 ++ post)).takeWhile Char.isDigit = d1 :=
    takeWhile_all_append _ _ _ _ h2 hsp
  have hd : (d1 ++ ' ' :: sx :: ' ' :: (d2 ++ post)).dropWhile Char.isDigit =
      ' ' :: sx :: ' ' :: (d2 ++ post) :=
    dropWhile_all_append _ _ _ _ h2 hsp
  have htw : (d2 ++ post).takeWhile Char.isDigit =
      d2 ++ post.takeWhile Char.isDigit :=
    takeWhile_append_all _ _ _ h4
  have hne2 : (d2 ++ post.takeWhile Char.isDigit) ≠ [] := by
    cases d2 with
    | nil => exact absurd rfl h3
    | cons c cs => simp
  unfold matchAt
  rw [ht, hd]
  rw [if_neg (by rw [isEmpty_false_of_ne_nil d1 h1]; exact Bool.false_ne_true)]
  show (if sx = 'F' ∨ sx = 'M' then
          if ((d2 ++ post).takeWhile Char.isDigit).isEmpty then none
          else some (d1, sx, (d2 ++ post).takeWhile Char.isDigit)
        else none) = _
  by_cases hsx : sx = 'F' ∨ sx = 'M'
  · rw [if_pos hsx, if_pos hsx, htw,
      if_neg (by rw [isEmpty_false_of_ne_nil _ hne2]; exact Bool.false_ne_true)]
  · rw [if_neg hsx, if_neg hsx]

theorem matchAt_shape (cs a : List Char) (s : Char) (b : List Char)
    (h : matchAt cs = some (a, s, b)) :
    a ≠ [] ∧ (∀ c ∈ a, c.isDigit = true) ∧ (s = 'F' ∨ s = 'M') ∧
    b ≠ [] ∧ (∀ c ∈ b, c.isDigit = true) ∧
    ∃ post, cs = (a ++ ' ' :: s :: ' ' :: b) ++ post := by
  unfold matchAt at h
  split at h
  · cases h
  next hne =>
    split at h
    next sx rest heq =>
      split at h
      next hsx =>
        split at h
        · cases h
        next hd2 =>
          injection h with h
          injection h with ha h
          injection h with hs hb
          subst ha
          subst hs
          subst hb
          have hcs := (List.takeWhile_append_dropWhile (p := Char.isDigit)
            (l := cs)).symm
          rw [heq] at hcs
          have hrest := (List.takeWhile_append_dropWhile (p := Char.isDigit)
            (l := rest)).symm
          refine ⟨?_, mem_takeWhile_digit _ _, hsx, ?_, mem_takeWhile_digit _ _,
            rest.dropWhile Char.isDigit, ?_⟩
          · intro he
            rw [he] at hne
            exact hne rfl
          · intro he
            rw [he] at hd2
            exact hd2 rfl
          · conv_lhs => rw [hcs]
            conv_lhs => rw [hrest]
            simp
      · cases h
    · cases h

theorem searchPat_of_matchAt (pre : List Char) :
    ∀ (suffix : List Char) (r : List Char × Char × List Char),
      matchAt suffix = some r →
      ∃ r', searchPat (pre ++ suffix) = some r' := by
  induction pre with
  | nil =>
    intro suffix r hm
    rw [List.nil_append]
    cases suffix with
    | nil =>
      have hnone : matchAt ([] : List Char) = none := rfl
      rw [hnone] at hm
      cases hm
    | cons c cs =>
      refine ⟨r, ?_⟩
      unfold searchPat
      rw [hm]
  | cons p pre' ih =>
    intro suffix r hm
    rw [List.cons_append]
    cases hm' : matchAt (p :: (pre' ++ suffix)) with
    | some r'' =>
      refine ⟨r'', ?_⟩
      unfold searchPat
      rw [hm']
    | none =>
      obtain ⟨r', hr'⟩ := ih suffix r hm
      refine ⟨r', ?_⟩
      unfold searchPat
      rw [hm']
      exact hr'

theorem searchPat_shape (l : List Char) :
    ∀ (a : List Char) (s : Char) (b : List Char),
      searchPat l = some (a, s, b) →
      a ≠ [] ∧ (∀ c ∈ a, c.isDigit = true) ∧ (s = 'F' ∨ s = 'M') ∧
      b ≠ [] ∧ (∀ c ∈ b, c.isDigit = true) ∧
      ∃ u v, l = u ++ (a ++ ' ' :: s :: ' ' :: b) ++ v := by
  induction l with
  | nil => intro a s b h; cases h
  | cons c cs ih =>
    intro a s b h
    unfold searchPat at h
    cases hm : matchAt (c :: cs) with
    | some r =>
      simp only [hm, Option.some.injEq] at h
      subst h
      obtain ⟨h1, h2, h3, h4, h5, post, hdec⟩ := matchAt_shape (c :: cs) a s b hm
      exact ⟨h1, h2, h3, h4, h5, [], post, by rw [List.nil_append]; exact hdec⟩
    | none =>
      simp only [hm] at h
      obtain ⟨h1, h2, h3, h4, h5, u, v, hdec⟩ := ih a s b h
      refine ⟨h1, h2, h3, h4, h5, c :: u, v, ?_⟩
      rw [hdec]
      rfl

/-- Claim C8: for every path containing a substring of the form
nonempty-digits, space, a sex character that is `F` or `M`, space,
nonempty-digits, the extractor succeeds and returns the three
whitespace-split trimmed tokens of a matched substring: two nonempty
all-digit strings around the one-character sex code, with the matched
substring occurring inside the path. -/
theorem C8_extractor_pattern (path : String) (pre d1 d2 post : List Char)
    (sx : Char)
    (hdecomp : path.toList = pre ++ (d1 ++ ' ' :: sx :: ' ' :: (d2 ++ post)))
    (h1 : d1 ≠ []) (h2 : ∀ c ∈ d1, c.isDigit = true)
    (hsx : sx = 'F' ∨ sx = 'M')
    (h3 : d2 ≠ []) (h4 : ∀ c ∈ d2, c.isDigit = true) :
    ∃ (a : List Char) (s : Char) (b : List Char),
      extract_id_sex_age path = some (⟨a⟩, ⟨[s]⟩, ⟨b⟩) ∧
      a ≠ [] ∧ (∀ c ∈ a, c.isDigit = true) ∧ (s = 'F' ∨ s = 'M') ∧
      b ≠ [] ∧ (∀ c ∈ b, c.isDigit = true) ∧
      ∃ u v, path.toList = u ++ (a ++ ' ' :: s :: ' ' :: b) ++ v := by
  have hm := matchAt_of_decomp d1 sx d2 post h1 h2 h3 h4
  rw [if_pos hsx] at hm
  obtain ⟨r', hs'⟩ := searchPat_of_matchAt pre _ _ hm
  have hsp : searchPat path.toList = some r' := by rw [hdecomp]; exact hs'
  obtain ⟨a, s, b⟩ := r'
  obtain ⟨g1, g2, g3, g4, g5, u, v, hdec⟩ := searchPat_shape path.toList a s b hsp
  refine ⟨a, s, b, ?_, g1, g2, g3, g4, g5, u, v, hdec⟩
  unfold extract_id_sex_age
  rw [hsp]
  rfl

theorem C8_witness :
    (extract_id_sex_age "Dataset/12 F 034/T2_AX/EXP00000/x.dcm" =
      some ("12", "F", "034")) ∧
    ∃ (a : List Char) (s : Char) (b : List Char),
      extract_id_sex_age "Dataset/12 F 034/T2_AX/EXP00000/x.dcm" =
        some (⟨a⟩, ⟨[s]⟩, ⟨b⟩) ∧
      a ≠ [] ∧ (∀ c ∈ a, c.isDigit = true) ∧ (s = 'F' ∨ s = 'M') ∧
      b ≠ [] ∧ (∀ c ∈ b, c.isDigit = true) ∧
      ∃ u v, ("Dataset/12 F 034/T2_AX/EXP00000/x.dcm" : String).toList =
        u ++ (a ++ ' ' :: s :: ' ' :: b) ++ v :=
  ⟨by decide,
   C8_extractor_pattern "Dataset/12 F 034/T2_AX/EXP00000/x.dcm"
     "Dataset/".toList ['1', '2'] ['0', '3', '4']
     "/T2_AX/EXP00000/x.dcm".toList 'F' (by decide) (by decide) (by decide)
     (Or.inl rfl) (by decide) (by decide)⟩
